import Mathlib

/-!
# Verification of the ftml block parser and footnote renderer (wikijump)

Shallow embedding of the code under src/ftml:
* src/ftml/src/parsing/rule/impls/block/blocks/del.rs — the deletion
  block rule (BLOCK_DEL) and its parse function.
* src/ftml/src/render/html/element/footnotes.rs — render_footnote and
  render_footnote_block.

Machinery that those files use but that is not present under src/
(the Parser driver, the tokenizer, the block-rule registry lookup,
HtmlContext, the locale handle) is modelled from the spec; each such
definition carries a doc comment starting with "Modelled from the spec".
-/

namespace Ftml

/-- ContainerType tag carried by a Container element.  Only the deletion
rule is present under src/, so only that constructor is needed. -/
inductive ContainerType where
  | deletion
deriving DecidableEq, Repr

/-- Element: the typed tree of parsed content (spec §3).  `container` is
embedded from the source's Element::Container; `text` is the plain text
variant; `footnote` and `footnoteBlock` are the deferred-content variants
consumed by render/html/element/footnotes.rs. -/
inductive Element where
  | text (s : String)
  | container (ty : ContainerType) (children : List Element) (attributes : List (String × String))
  | footnote (body : String)
  | footnoteBlock (title : Option String)

/-- Kinds of recoverable parse exceptions relevant to the embedded rules
(spec §7: unknown block name, disallowed modifier flag, ...). -/
inductive ParseExceptionKind where
  | noSuchBlock
  | blockDisallowsStar
  | blockDisallowsScore
  | unexpectedClose
deriving DecidableEq, Repr

/-- A recoverable parse diagnostic (spec §3, ParseException). -/
structure ParseException where
  kind : ParseExceptionKind
  blockName : String
deriving DecidableEq, Repr

/-- Fatal parse conditions (spec §4.2 / §7): the recursion limit, and a
violated internal assertion (a Rust assert! panic aborts the parse). -/
inductive FatalError where
  | recursionLimitExceeded
  | assertionFailed
deriving DecidableEq, Repr

/-- Modelled from the spec: the token stream the block parser consumes.
The tokenizer is not under src/, so input is modelled at block level: an
opening tag with the written name, star and score modifier flags and its
head arguments, plain text, and a closing tag. -/
inductive Token where
  | blockOpen (name : String) (star : Bool) (score : Bool) (args : List (String × String))
  | text (s : String)
  | blockClose (name : String)
deriving DecidableEq, Repr

/-- BlockRule descriptor, embedded from the source (del.rs declares the
fields name, accepts_names, accepts_star, accepts_score, accepts_newlines;
the parse behavior is dispatched as a closed variant, spec §9). -/
structure BlockRule where
  name : String
  accepts_names : List String
  accepts_star : Bool
  accepts_score : Bool
  accepts_newlines : Bool
deriving DecidableEq, Repr

/-- BLOCK_DEL, embedded from del.rs lines 23-30. -/
def BLOCK_DEL : BlockRule :=
  { name := "block-del"
  , accepts_names := ["del", "deletion"]
  , accepts_star := false
  , accepts_score := false
  , accepts_newlines := false }

/-- Modelled from the spec (§4.1): registry lookup resolves a written
block name by exact match against a registered rule's accepted names.
Only BLOCK_DEL is registered, because only del.rs is under src/. -/
def lookupBlockRule (name : String) : Option BlockRule :=
  if BLOCK_DEL.accepts_names.contains name then some BLOCK_DEL else none

/-- Modelled from the spec: assert_block_name (called by parse_fn in
del.rs, defined outside src/) checks the given name is one the rule
accepts; a failure is a programming error (panic). -/
def assert_block_name (rule : BlockRule) (name : String) : Bool :=
  rule.accepts_names.contains name

/-- Modelled from the spec (§4.2 step 3): get_head_map collects the
key→value argument pairs of the opening tag when the context expects
arguments in head position; unknown keys are preserved, not rejected. -/
def get_head_map (in_head : Bool) (args : List (String × String)) : List (String × String) :=
  if in_head then args else []

/-- Result of parsing a span of tokens: elements, collected exceptions,
aggregated paragraph-safety, and the remaining tokens. -/
abbrev ParseOutcome := List Element × List ParseException × Bool × List Token

/-- Modelled from the spec (§4.2): the recursive block-parsing driver.
Fuel bounds the recursion; exhausting it is the fatal
RecursionLimitExceeded condition (spec §4.2).  `closeNames` is the set of
close-tag names that end the current body.  Per token:
* text becomes a text element (paragraph-safe);
* a close tag matching `closeNames` ends the body; an unmatched close tag
  is a recoverable exception and is skipped;
* an open tag is resolved through the registry; an unknown name or a
  star/score flag the rule does not accept is a recoverable exception and
  the tag is skipped (spec §4.2 step 1, §7); otherwise the rule's parse
  function runs — for BLOCK_DEL that is parse_fn of del.rs, inlined here
  (and stated separately below as `parse_fn`): assert the modifier flags
  are absent, read the head map, parse the body without paragraph
  wrapping up to the matching close tag, and build a Deletion container.
Sibling paragraph-safety aggregates by logical AND (spec §4.2 step 6). -/
def parseElements : Nat → List Token → List String → Except FatalError ParseOutcome
  | 0, _, _ => .error .recursionLimitExceeded
  | _ + 1, [], _ => .ok ([], [], true, [])
  | f + 1, Token.text s :: rest, closeNames =>
    match parseElements f rest closeNames with
    | .error e => .error e
    | .ok (elems, excs, safe, rem) => .ok (Element.text s :: elems, excs, safe, rem)
  | f + 1, Token.blockClose name :: rest, closeNames =>
    if closeNames.contains name then
      .ok ([], [], true, rest)
    else
      match parseElements f rest closeNames with
      | .error e => .error e
      | .ok (elems, excs, safe, rem) =>
        .ok (elems, ⟨ParseExceptionKind.unexpectedClose, name⟩ :: excs, safe, rem)
  | f + 1, Token.blockOpen name star score args :: rest, closeNames =>
    match lookupBlockRule name with
    | none =>
      match parseElements f rest closeNames with
      | .error e => .error e
      | .ok (elems, excs, safe, rem) =>
        .ok (elems, ⟨ParseExceptionKind.noSuchBlock, name⟩ :: excs, safe, rem)
    | some rule =>
      if star && !rule.accepts_star then
        match parseElements f rest closeNames with
        | .error e => .error e
        | .ok (elems, excs, safe, rem) =>
          .ok (elems, ⟨ParseExceptionKind.blockDisallowsStar, name⟩ :: excs, safe, rem)
      else if score && !rule.accepts_score then
        match parseElements f rest closeNames with
        | .error e => .error e
        | .ok (elems, excs, safe, rem) =>
          .ok (elems, ⟨ParseExceptionKind.blockDisallowsScore, name⟩ :: excs, safe, rem)
      else
        -- dispatch to the rule's parse function: only BLOCK_DEL is
        -- registered, so this inlines parse_fn of del.rs (star and score
        -- are passed as the special/modifier arguments; in_head is true)
        if star then .error .assertionFailed
        else if score then .error .assertionFailed
        else if !(assert_block_name BLOCK_DEL name) then .error .assertionFailed
        else
          match parseElements f rest BLOCK_DEL.accepts_names with
          | .error e => .error e
          | .ok (body, excs₁, safe₁, rem₁) =>
            match parseElements f rem₁ closeNames with
            | .error e => .error e
            | .ok (elems, excs₂, safe₂, rem₂) =>
              .ok (Element.container ContainerType.deletion body (get_head_map true args) :: elems,
                   excs₁ ++ excs₂, safe₁ && safe₂, rem₂)

/-- parse_fn, embedded from del.rs lines 32-65: assert that the special
(star) and modifier (score) variants are absent and the name is accepted;
collect the head map; parse the body without paragraphs up to the
matching close marker; return a Deletion container with the body's
exceptions and paragraph-safety. -/
def parse_fn (fuel : Nat) (name : String) (special modifier in_head : Bool)
    (args : List (String × String)) (tokens : List Token) :
    Except FatalError (Element × List ParseException × Bool × List Token) :=
  if special then .error .assertionFailed
  else if modifier then .error .assertionFailed
  else if !(assert_block_name BLOCK_DEL name) then .error .assertionFailed
  else
    match parseElements fuel tokens BLOCK_DEL.accepts_names with
    | .error e => .error e
    | .ok (body, excs, safe, rem) =>
      .ok (Element.container ContainerType.deletion body (get_head_map in_head args), excs, safe, rem)

/-- Modelled from the spec (§6): the parse phase of a whole document
returns the element tree, the exception list and the paragraph-safety
boolean. -/
def parseDocument (fuel : Nat) (tokens : List Token) :
    Except FatalError (List Element × List ParseException × Bool) :=
  match parseElements fuel tokens [] with
  | .error e => .error e
  | .ok (elems, excs, safe, _) => .ok (elems, excs, safe)

/-- Deletion's own default paragraph-safety policy: safe (it is an inline
wrapper; del.rs returns the body's aggregated safety unchanged, i.e.
ANDed with true). -/
def delDefaultParagraphSafe : Bool := true

mutual

/-- Paragraph-safety of one element (spec §3): text is safe; a container
is safe iff its children all are (its own default policy — safe for the
deletion container — ANDed with the children's aggregate). -/
def elementParagraphSafe : Element → Bool
  | Element.text _ => true
  | Element.container _ children _ => elementsParagraphSafe children
  | Element.footnote _ => true
  | Element.footnoteBlock _ => false

/-- Aggregated paragraph-safety of a list of elements: logical AND. -/
def elementsParagraphSafe : List Element → Bool
  | [] => true
  | e :: rest => elementParagraphSafe e && elementsParagraphSafe rest

end

/-- HTML output modelled structurally: a tag with its attribute list (in
emission order) and children, or a text node. -/
inductive Html where
  | text (s : String)
  | tag (name : String) (attrs : List (String × String)) (children : List Html)

/-- Modelled from the spec (§3, RenderContext): a monotonically
increasing footnote index counter, the ordered collection of footnote
text bodies (index = position + 1), the locale handle's message table and
active language.  `assignedIndices` is a ghost trace recording, in order,
every index the counter hands out; it exists only so theorems can speak
about the sequence of assigned indices and does not influence any
rendered output. -/
structure HtmlContext where
  footnoteCounter : Nat
  assignedIndices : List Nat
  footnotes : List String
  messages : List (String × String)
  language : String

/-- Modelled from the spec (§4.3 / §6): locale message lookup is a pure
function of (message key, active locale) → string; a lookup miss falls
back to a documented default, modelled as the message key itself, so the
lookup never fails. -/
def get_message (messages : List (String × String)) (key : String) : String :=
  match messages.lookup key with
  | some s => s
  | none => key

/-- Modelled from the spec (§4.3): next_footnote_index hands out the next
sequential 1-based index from the counter (and records it in the ghost
trace). -/
def next_footnote_index (ctx : HtmlContext) : Nat × HtmlContext :=
  let index := ctx.footnoteCounter + 1
  (index, { ctx with
              footnoteCounter := index
            , assignedIndices := ctx.assignedIndices ++ [index] })

/-- Modelled from the spec (§3): get_footnote reads the stored footnote
body for a 1-based index (index = position + 1). -/
def get_footnote (ctx : HtmlContext) (index : Nat) : Option String :=
  ctx.footnotes.get? (index - 1)

/-- The "wj-footnote-{index}" identifier formatted by both
render_footnote (content_id) and render_footnote_block (list item id). -/
def footnoteContentId (index : Nat) : String :=
  "wj-footnote-" ++ toString index

/-- The "wj-footnote-ref-{index}" identifier formatted by both
render_footnote (ref_id) and render_footnote_block (back-link target). -/
def footnoteRefId (index : Nat) : String :=
  "wj-footnote-ref-" ++ toString index

/-- render_footnote, embedded from footnotes.rs lines 23-77: obtain the
next index, format the ref/content identifiers and the accessible label,
fetch the stored body — the source unwraps here, so a missing body aborts
the render (modelled as `none`) — and emit the marker span with its
hoverable button and tooltip. -/
def render_footnote (ctx : HtmlContext) : Option (Html × HtmlContext) :=
  let step := next_footnote_index ctx
  let index := step.1
  let ctx := step.2
  let ref_id := footnoteRefId index
  let content_id := footnoteContentId index
  let footnote_string := get_message ctx.messages "footnote"
  let label := footnote_string ++ " " ++ toString index ++ "."
  match get_footnote ctx index with
  | none => none
  | some contents =>
    some
      ( Html.tag "span" [("class", "wj-footnote-ref")]
          [ Html.tag "button"
              [ ("is", "wj-footnote-ref-marker")
              , ("class", "wj-footnote-ref-marker")
              , ("type", "button")
              , ("role", "link")
              , ("aria-label", label)
              , ("data-footnote-ref-id", ref_id)
              , ("data-footnote-content-id", content_id) ]
              [Html.text (toString index)]
          , Html.tag "span"
              [("class", "wj-footnote-ref-tooltip"), ("aria-hidden", "true")]
              [ Html.tag "span" [("class", "wj-footnote-ref-tooltip-label")]
                  [Html.text label]
              , Html.tag "span" [("class", "wj-footnote-ref-contents")]
                  [Html.text contents] ] ]
      , ctx )

/-- The title string render_footnote_block uses (footnotes.rs lines
86-95): an explicit title verbatim, otherwise the locale message for
"footnote-block-title". -/
def footnoteBlockTitle (ctx : HtmlContext) (title : Option String) : String :=
  match title with
  | some t => t
  | none => get_message ctx.messages "footnote-block-title"

/-- One list item of the footnote block, embedded from footnotes.rs lines
114-151: an li carrying id "wj-footnote-{index}", containing the
clickable number with its separator period (the anchor's onclick scrolls
to "wj-footnote-ref-{index}") and the footnote contents. -/
def footnoteListItem (index : Nat) (contents : String) : Html :=
  Html.tag "li" [("class", "wj-footnote"), ("id", footnoteContentId index)]
    [ Html.tag "a"
        [ ("href", "javascript:;")
        , ("onclick",
            "WIKIJUMP.page.utils.scrollToFootnote(\x27" ++ footnoteRefId index ++ "\x27)") ]
        [ Html.text (toString index)
        , Html.tag "span" [("class", "wj-footnote-sep")] [Html.text "."] ]
    , Html.tag "div" [("class", "wj-footnote-contents")] [Html.text contents] ]

/-- render_footnote_block, embedded from footnotes.rs lines 79-155: a div
holding the title and an ol of one item per stored footnote body, where
the body at list position `index` (0-based enumeration) is shown with
number `index + 1`. -/
def render_footnote_block (ctx : HtmlContext) (title : Option String) : Html :=
  Html.tag "div" [("is", "wj-footnotes-list"), ("class", "wj-footnotes-list")]
    [ Html.tag "div" [("class", "wj-title")] [Html.text (footnoteBlockTitle ctx title)]
    , Html.tag "ol" []
        (ctx.footnotes.enum.map (fun ic => footnoteListItem (ic.1 + 1) ic.2)) ]

mutual

/-- Modelled from the spec (§4.3): rendering one node of the tree walk.
Text renders as a text node; a footnote reference renders through
render_footnote (aborting if it aborts); the footnote-list element
renders through render_footnote_block; a container renders its children
inside a wrapper tag (the tag name chosen for a container does not
matter for the claims below). -/
def renderElement : HtmlContext → Element → Option (Html × HtmlContext)
  | ctx, Element.text s => some (Html.text s, ctx)
  | ctx, Element.footnote _ => render_footnote ctx
  | ctx, Element.footnoteBlock title => some (render_footnote_block ctx title, ctx)
  | ctx, Element.container _ children _ =>
    match renderElements ctx children with
    | none => none
    | some (hs, ctx₁) => some (Html.tag "del" [] hs, ctx₁)

/-- Modelled from the spec (§4.3): the single-pass left-to-right tree
walk of the HTML renderer, threading the RenderContext. -/
def renderElements : HtmlContext → List Element → Option (List Html × HtmlContext)
  | ctx, [] => some ([], ctx)
  | ctx, e :: rest =>
    match renderElement ctx e with
    | none => none
    | some (h, ctx₁) =>
      match renderElements ctx₁ rest with
      | none => none
      | some (hs, ctx') => some (h :: hs, ctx')

end

mutual

/-- The footnote bodies stored in one element, in tree order. -/
def elementFootnotes : Element → List String
  | Element.footnote body => [body]
  | Element.container _ children _ => collectFootnotes children
  | Element.text _ => []
  | Element.footnoteBlock _ => []

/-- Modelled from the spec (§3 / §4.3): the footnote text bodies reach
the RenderContext's ordered collection before any reference renders, in
document (encounter) order, so that the reference holding the Nth body
reads it back at index N. -/
def collectFootnotes : List Element → List String
  | [] => []
  | e :: rest => elementFootnotes e ++ collectFootnotes rest

end

mutual

/-- Number of footnote references in one element (recursively). -/
def elementFootnoteRefs : Element → Nat
  | Element.footnote _ => 1
  | Element.container _ children _ => countFootnoteRefs children
  | Element.text _ => 0
  | Element.footnoteBlock _ => 0

/-- Number of footnote references in a list of elements, in tree order. -/
def countFootnoteRefs : List Element → Nat
  | [] => 0
  | e :: rest => elementFootnoteRefs e + countFootnoteRefs rest

end

mutual

/-- Whether one element (recursively) contains the footnote-list block. -/
def elementHasFootnoteBlock : Element → Bool
  | Element.footnoteBlock _ => true
  | Element.container _ children _ => hasFootnoteBlock children
  | Element.text _ => false
  | Element.footnote _ => false

/-- Whether any element of the list (recursively) is the footnote-list
block. -/
def hasFootnoteBlock : List Element → Bool
  | [] => false
  | e :: rest => elementHasFootnoteBlock e || hasFootnoteBlock rest

end

/-- A fresh RenderContext at the start of one render pass (spec §3):
counter at zero, empty trace, the gathered footnote bodies, the locale
handle. -/
def freshContext (messages : List (String × String)) (language : String)
    (footnotes : List String) : HtmlContext :=
  { footnoteCounter := 0
  , assignedIndices := []
  , footnotes := footnotes
  , messages := messages
  , language := language }

/-- Modelled from the spec (§6): one whole render pass over a document:
gather the footnote bodies, create a fresh context, walk the tree. -/
def renderDocumentCtx (messages : List (String × String)) (language : String)
    (elems : List Element) : Option (List Html × HtmlContext) :=
  renderElements (freshContext messages language (collectFootnotes elems)) elems

/-- The rendered output of one whole render pass. -/
def renderDocument (messages : List (String × String)) (language : String)
    (elems : List Element) : Option (List Html) :=
  (renderDocumentCtx messages language elems).map (fun p => p.1)

mutual

/-- Whether an Html tree contains the footnotes-list element (the tag
carrying the attribute pair ("is", "wj-footnotes-list")). -/
def containsFootnotesList : Html → Bool
  | Html.text _ => false
  | Html.tag _ attrs children =>
    attrs.any (fun a => a.1 == "is" && a.2 == "wj-footnotes-list")
      || anyContainsFootnotesList children

/-- Any-of containsFootnotesList over a list of Html trees. -/
def anyContainsFootnotesList : List Html → Bool
  | [] => false
  | h :: rest => containsFootnotesList h || anyContainsFootnotesList rest

end

/-- The list of indices handed out by the counter during one whole render
pass (read off the ghost trace). -/
def assignedAfter (messages : List (String × String)) (language : String)
    (elems : List Element) : Option (List Nat) :=
  (renderDocumentCtx messages language elems).map (fun p => p.2.assignedIndices)

/-- The final value of the footnote counter after one whole render pass. -/
def counterAfter (messages : List (String × String)) (language : String)
    (elems : List Element) : Option Nat :=
  (renderDocumentCtx messages language elems).map (fun p => p.2.footnoteCounter)

/-- The consecutive indices start, start+1, ..., start+len-1. -/
def indexRange : Nat → Nat → List Nat
  | _, 0 => []
  | start, len + 1 => start :: indexRange (start + 1) len


theorem indexRange_append (m n s : Nat) :
    indexRange s (m + n) = indexRange s m ++ indexRange (s + m) n := by
  induction m generalizing s with
  | zero => simp [indexRange]
  | succ m ih =>
    have h1 : m + 1 + n = (m + n) + 1 := by omega
    rw [h1]
    simp only [indexRange, ih (s + 1), List.cons_append]
    have h2 : s + 1 + m = s + (m + 1) := by omega
    rw [h2]

theorem parseElements_safe :
    ∀ (f : Nat) (ts : List Token) (cn : List String) (elems : List Element)
      (excs : List ParseException) (safe : Bool) (rem : List Token),
      parseElements f ts cn = .ok (elems, excs, safe, rem) →
      safe = elementsParagraphSafe elems := by
  intro f
  induction f with
  | zero =>
    intro ts cn elems excs safe rem h
    simp [parseElements] at h
  | succ f ih =>
    intro ts cn elems excs safe rem h
    cases ts with
    | nil =>
      simp only [parseElements, Except.ok.injEq, Prod.mk.injEq] at h
      obtain ⟨h1, h2, h3, h4⟩ := h
      subst h1; subst h3
      simp [elementsParagraphSafe]
    | cons t rest =>
      cases t with
      | text s =>
        simp only [parseElements] at h
        split at h
        · exact absurd h (by simp)
        · rename_i elems' excs' safe' rem' heq
          simp only [Except.ok.injEq, Prod.mk.injEq] at h
          obtain ⟨h1, h2, h3, h4⟩ := h
          subst h1; subst h3
          simp [elementsParagraphSafe, elementParagraphSafe,
                ih rest cn elems' excs' safe' rem' heq]
      | blockClose name =>
        simp only [parseElements] at h
        by_cases hc : cn.contains name
        · rw [if_pos hc] at h
          simp only [Except.ok.injEq, Prod.mk.injEq] at h
          obtain ⟨h1, h2, h3, h4⟩ := h
          subst h1; subst h3
          simp [elementsParagraphSafe]
        · rw [if_neg hc] at h
          split at h
          · exact absurd h (by simp)
          · rename_i elems' excs' safe' rem' heq
            simp only [Except.ok.injEq, Prod.mk.injEq] at h
            obtain ⟨h1, h2, h3, h4⟩ := h
            subst h1; subst h3
            exact ih rest cn elems' excs' safe' rem' heq
      | blockOpen name star score args =>
        simp only [parseElements] at h
        split at h
        · -- no such block
          split at h
          · exact absurd h (by simp)
          · rename_i elems' excs' safe' rem' heq
            simp only [Except.ok.injEq, Prod.mk.injEq] at h
            obtain ⟨h1, h2, h3, h4⟩ := h
            subst h1; subst h3
            exact ih rest cn elems' excs' safe' rem' heq
        · rename_i rule hrule
          by_cases hstar : (star && !rule.accepts_star) = true
          · rw [if_pos hstar] at h
            split at h
            · exact absurd h (by simp)
            · rename_i elems' excs' safe' rem' heq
              simp only [Except.ok.injEq, Prod.mk.injEq] at h
              obtain ⟨h1, h2, h3, h4⟩ := h
              subst h1; subst h3
              exact ih rest cn elems' excs' safe' rem' heq
          · rw [if_neg hstar] at h
            by_cases hscore : (score && !rule.accepts_score) = true
            · rw [if_pos hscore] at h
              split at h
              · exact absurd h (by simp)
              · rename_i elems' excs' safe' rem' heq
                simp only [Except.ok.injEq, Prod.mk.injEq] at h
                obtain ⟨h1, h2, h3, h4⟩ := h
                subst h1; subst h3
                exact ih rest cn elems' excs' safe' rem' heq
            · rw [if_neg hscore] at h
              by_cases hs1 : star = true
              · rw [if_pos hs1] at h; exact absurd h (by simp)
              · rw [if_neg hs1] at h
                by_cases hs2 : score = true
                · rw [if_pos hs2] at h; exact absurd h (by simp)
                · rw [if_neg hs2] at h
                  by_cases hs3 : (!assert_block_name BLOCK_DEL name) = true
                  · rw [if_pos hs3] at h; exact absurd h (by simp)
                  · rw [if_neg hs3] at h
                    split at h
                    · exact absurd h (by simp)
                    · rename_i body excs₁ safe₁ rem₁ heq1
                      split at h
                      · exact absurd h (by simp)
                      · rename_i elems₂ excs₂ safe₂ rem₂ heq2
                        simp only [Except.ok.injEq, Prod.mk.injEq] at h
                        obtain ⟨h1, h2, h3, h4⟩ := h
                        subst h1; subst h3
                        simp [elementsParagraphSafe, elementParagraphSafe,
                              ih rest BLOCK_DEL.accepts_names body excs₁ safe₁ rem₁ heq1,
                              ih rem₁ cn elems₂ excs₂ safe₂ rem₂ heq2]




theorem render_footnote_ctx (ctx : HtmlContext) (h₀ : Html) (ctx₁ : HtmlContext)
    (h : render_footnote ctx = some (h₀, ctx₁)) :
    ctx₁ = { ctx with
               footnoteCounter := ctx.footnoteCounter + 1
             , assignedIndices := ctx.assignedIndices ++ [ctx.footnoteCounter + 1] } := by
  simp only [render_footnote, next_footnote_index] at h
  split at h
  · exact absurd h (by simp)
  · simp only [Option.some.injEq, Prod.mk.injEq] at h
    exact h.2.symm

theorem renderElements_trace :
    ∀ (n : Nat) (ctx : HtmlContext) (es : List Element) (hs : List Html) (ctx' : HtmlContext),
      sizeOf es ≤ n →
      renderElements ctx es = some (hs, ctx') →
      ctx'.footnotes = ctx.footnotes ∧ ctx'.messages = ctx.messages ∧
      ctx'.language = ctx.language ∧
      ctx'.footnoteCounter = ctx.footnoteCounter + countFootnoteRefs es ∧
      ctx'.assignedIndices =
        ctx.assignedIndices ++ indexRange (ctx.footnoteCounter + 1) (countFootnoteRefs es) := by
  intro n
  induction n with
  | zero =>
    intro ctx es hs ctx' hsz h
    cases es <;> simp at hsz
  | succ n ih =>
    intro ctx es hs ctx' hsz h
    cases es with
    | nil =>
      simp only [renderElements, Option.some.injEq, Prod.mk.injEq] at h
      obtain ⟨h1, h2⟩ := h
      subst h2
      simp [countFootnoteRefs, indexRange]
    | cons e rest =>
      have hszrest : sizeOf rest ≤ n := by
        simp only [List.cons.sizeOf_spec] at hsz
        have : 0 < sizeOf e := by cases e <;> simp
        omega
      simp only [renderElements] at h
      split at h
      · exact absurd h (by simp)
      · rename_i h₀ ctx₁ heq1
        split at h
        · exact absurd h (by simp)
        · rename_i hs₂ ctx₂ heq2
          simp only [Option.some.injEq, Prod.mk.injEq] at h
          obtain ⟨h1, h2⟩ := h
          subst h2
          have hrest := ih ctx₁ rest hs₂ _ hszrest heq2
          cases e with
          | text s =>
            simp only [renderElement, Option.some.injEq, Prod.mk.injEq] at heq1
            obtain ⟨hh, hc⟩ := heq1
            subst hc
            simp only [countFootnoteRefs, elementFootnoteRefs] at *
            simpa using hrest
          | footnoteBlock title =>
            simp only [renderElement, Option.some.injEq, Prod.mk.injEq] at heq1
            obtain ⟨hh, hc⟩ := heq1
            subst hc
            simp only [countFootnoteRefs, elementFootnoteRefs] at *
            simpa using hrest
          | footnote b =>
            simp only [renderElement] at heq1
            have hctx1 := render_footnote_ctx ctx h₀ ctx₁ heq1
            subst hctx1
            obtain ⟨r1, r2, r3, r4, r5⟩ := hrest
            simp only [countFootnoteRefs, elementFootnoteRefs] at *
            refine ⟨r1, r2, r3, by omega, ?_⟩
            rw [r5]
            have h1k : (1 : Nat) + countFootnoteRefs rest = countFootnoteRefs rest + 1 := by omega
            rw [h1k]
            simp only [indexRange]
            simp [List.append_assoc]
          | container ty children attrs =>
            have hszch : sizeOf children ≤ n := by
              simp only [List.cons.sizeOf_spec, Element.container.sizeOf_spec] at hsz
              omega
            simp only [renderElement] at heq1
            split at heq1
            · exact absurd heq1 (by simp)
            · rename_i hs₁ ctxc heqc
              simp only [Option.some.injEq, Prod.mk.injEq] at heq1
              obtain ⟨hh, hc⟩ := heq1
              subst hc
              have hch := ih ctx children hs₁ _ hszch heqc
              obtain ⟨c1, c2, c3, c4, c5⟩ := hch
              obtain ⟨r1, r2, r3, r4, r5⟩ := hrest
              simp only [countFootnoteRefs, elementFootnoteRefs] at *
              refine ⟨by rw [r1, c1], by rw [r2, c2], by rw [r3, c3], by omega, ?_⟩
              rw [r5, c5, c4]
              rw [indexRange_append (countFootnoteRefs children) (countFootnoteRefs rest) (ctx.footnoteCounter + 1)]
              have harg : ctx.footnoteCounter + countFootnoteRefs children + 1
                  = ctx.footnoteCounter + 1 + countFootnoteRefs children := by omega
              rw [harg]
              simp [List.append_assoc]



theorem render_footnote_some (ctx : HtmlContext) (b : String)
    (hb : ctx.footnotes.get? ctx.footnoteCounter = some b) :
    ∃ h, render_footnote ctx =
      some (h, { ctx with
                  footnoteCounter := ctx.footnoteCounter + 1
                , assignedIndices := ctx.assignedIndices ++ [ctx.footnoteCounter + 1] }) := by
  simp only [render_footnote, next_footnote_index, get_footnote]
  simp only [Nat.add_sub_cancel]
  rw [hb]
  exact ⟨_, rfl⟩

theorem renderElements_run :
    ∀ (n : Nat) (ctx : HtmlContext) (es : List Element),
      sizeOf es ≤ n →
      ctx.footnoteCounter + countFootnoteRefs es ≤ ctx.footnotes.length →
      ∃ out, renderElements ctx es = some out := by
  intro n
  induction n with
  | zero =>
    intro ctx es hsz hlen
    cases es <;> simp at hsz
  | succ n ih =>
    intro ctx es hsz hlen
    cases es with
    | nil => exact ⟨([], ctx), rfl⟩
    | cons e rest =>
      have hszrest : sizeOf rest ≤ n := by
        simp only [List.cons.sizeOf_spec] at hsz
        have : 0 < sizeOf e := by cases e <;> simp
        omega
      cases e with
      | text s =>
        simp only [countFootnoteRefs, elementFootnoteRefs] at hlen
        obtain ⟨⟨hs₂, ctx₂⟩, h2⟩ := ih ctx rest hszrest (by omega)
        exact ⟨(Html.text s :: hs₂, ctx₂), by simp [renderElements, renderElement, h2]⟩
      | footnoteBlock title =>
        simp only [countFootnoteRefs, elementFootnoteRefs] at hlen
        obtain ⟨⟨hs₂, ctx₂⟩, h2⟩ := ih ctx rest hszrest (by omega)
        exact ⟨(render_footnote_block ctx title :: hs₂, ctx₂),
               by simp [renderElements, renderElement, h2]⟩
      | footnote b =>
        simp only [countFootnoteRefs, elementFootnoteRefs] at hlen
        have hcnt : ctx.footnoteCounter < ctx.footnotes.length := by omega
        obtain ⟨body, hbody⟩ : ∃ body, ctx.footnotes.get? ctx.footnoteCounter = some body := by
          cases hb : ctx.footnotes.get? ctx.footnoteCounter with
          | none => rw [List.get?_eq_none] at hb; omega
          | some body => exact ⟨body, rfl⟩
        obtain ⟨h₀, hfo⟩ := render_footnote_some ctx body hbody
        obtain ⟨⟨hs₂, ctx₂⟩, h2⟩ := ih
          { ctx with
              footnoteCounter := ctx.footnoteCounter + 1
            , assignedIndices := ctx.assignedIndices ++ [ctx.footnoteCounter + 1] }
          rest hszrest
          (by simpa using (show ctx.footnoteCounter + 1 + countFootnoteRefs rest
                ≤ ctx.footnotes.length by omega))
        exact ⟨(h₀ :: hs₂, ctx₂), by simp [renderElements, renderElement, hfo, h2]⟩
      | container ty children attrs =>
        have hszch : sizeOf children ≤ n := by
          simp only [List.cons.sizeOf_spec, Element.container.sizeOf_spec] at hsz
          omega
        simp only [countFootnoteRefs, elementFootnoteRefs] at hlen
        obtain ⟨⟨hs₁, ctxc⟩, hc⟩ := ih ctx children hszch (by omega)
        obtain ⟨c1, c2, c3, c4, c5⟩ := renderElements_trace n ctx children hs₁ ctxc hszch hc
        obtain ⟨⟨hs₂, ctx₂⟩, h2⟩ := ih ctxc rest hszrest (by rw [c4, c1]; omega)
        exact ⟨(Html.tag "del" [] hs₁ :: hs₂, ctx₂),
               by simp [renderElements, renderElement, hc, h2]⟩

theorem renderElements_noList :
    ∀ (n : Nat) (ctx : HtmlContext) (es : List Element) (hs : List Html) (ctx' : HtmlContext),
      sizeOf es ≤ n →
      renderElements ctx es = some (hs, ctx') →
      hasFootnoteBlock es = false →
      anyContainsFootnotesList hs = false := by
  intro n
  induction n with
  | zero =>
    intro ctx es hs ctx' hsz h hbf
    cases es <;> simp at hsz
  | succ n ih =>
    intro ctx es hs ctx' hsz h hbf
    cases es with
    | nil =>
      simp only [renderElements, Option.some.injEq, Prod.mk.injEq] at h
      obtain ⟨h1, h2⟩ := h
      subst h1
      simp [anyContainsFootnotesList]
    | cons e rest =>
      have hszrest : sizeOf rest ≤ n := by
        simp only [List.cons.sizeOf_spec] at hsz
        have : 0 < sizeOf e := by cases e <;> simp
        omega
      simp only [hasFootnoteBlock, Bool.or_eq_false_iff] at hbf
      obtain ⟨hbfe, hbfrest⟩ := hbf
      simp only [renderElements] at h
      split at h
      · exact absurd h (by simp)
      · rename_i h₀ ctx₁ heq1
        split at h
        · exact absurd h (by simp)
        · rename_i hs₂ ctx₂ heq2
          simp only [Option.some.injEq, Prod.mk.injEq] at h
          obtain ⟨h1, h2⟩ := h
          subst h1
          have hrest := ih ctx₁ rest hs₂ _ hszrest heq2 hbfrest
          simp only [anyContainsFootnotesList, Bool.or_eq_false_iff]
          refine ⟨?_, hrest⟩
          cases e with
          | text s =>
            simp only [renderElement, Option.some.injEq, Prod.mk.injEq] at heq1
            obtain ⟨hh, hc⟩ := heq1
            subst hh
            simp [containsFootnotesList]
          | footnoteBlock title =>
            simp [elementHasFootnoteBlock] at hbfe
          | footnote b =>
            simp only [renderElement, render_footnote, next_footnote_index, get_footnote] at heq1
            split at heq1
            · exact absurd heq1 (by simp)
            · simp only [Option.some.injEq, Prod.mk.injEq] at heq1
              obtain ⟨hh, hc⟩ := heq1
              subst hh
              simp [containsFootnotesList, anyContainsFootnotesList]
          | container ty children attrs =>
            simp only [elementHasFootnoteBlock] at hbfe
            have hszch : sizeOf children ≤ n := by
              simp only [List.cons.sizeOf_spec, Element.container.sizeOf_spec] at hsz
              omega
            simp only [renderElement] at heq1
            split at heq1
            · exact absurd heq1 (by simp)
            · rename_i hs₁ ctxc heqc
              simp only [Option.some.injEq, Prod.mk.injEq] at heq1
              obtain ⟨hh, hc⟩ := heq1
              subst hh
              have hch := ih ctx children hs₁ _ hszch heqc hbfe
              simp [containsFootnotesList, hch]



theorem collectFootnotes_length_aux :
    ∀ (n : Nat) (es : List Element), sizeOf es ≤ n →
      (collectFootnotes es).length = countFootnoteRefs es := by
  intro n
  induction n with
  | zero => intro es hsz; cases es <;> simp at hsz
  | succ n ih =>
    intro es hsz
    cases es with
    | nil => simp [collectFootnotes, countFootnoteRefs]
    | cons e rest =>
      have hszrest : sizeOf rest ≤ n := by
        simp only [List.cons.sizeOf_spec] at hsz
        have : 0 < sizeOf e := by cases e <;> simp
        omega
      simp only [collectFootnotes, countFootnoteRefs, List.length_append, ih rest hszrest]
      cases e with
      | text s => simp [elementFootnotes, elementFootnoteRefs]
      | footnote b => simp [elementFootnotes, elementFootnoteRefs]
      | footnoteBlock t => simp [elementFootnotes, elementFootnoteRefs]
      | container ty children attrs =>
        have hszch : sizeOf children ≤ n := by
          simp only [List.cons.sizeOf_spec, Element.container.sizeOf_spec] at hsz
          omega
        simp [elementFootnotes, elementFootnoteRefs, ih children hszch]

theorem collectFootnotes_length (es : List Element) :
    (collectFootnotes es).length = countFootnoteRefs es :=
  collectFootnotes_length_aux (sizeOf es) es (Nat.le_refl _)

/-- C1: parsing the tokenization of the input [[del]]old[[/del]] produces
exactly one Element — a Container of ContainerType Deletion whose children
are exactly the one text element "old" — with an empty exception list and
paragraph-safety true. -/
theorem c1_del_scenario :
    parseDocument 4
      [Token.blockOpen "del" false false [], Token.text "old", Token.blockClose "del"]
      = .ok ([Element.container ContainerType.deletion [Element.text "old"] []], [], true) :=
  rfl

/-- C3: a star or score modifier flag written on a deletion-rule block
(whose capability flags are both false) is recorded as a recoverable
ParseException — the star check comes first — and parsing of the
surrounding token stream continues exactly as it would without the
offending tag; the condition itself never yields a fatal error. -/
theorem c3_disallowed_flag (f : Nat) (name : String) (star score : Bool)
    (args : List (String × String)) (ts : List Token) (cn : List String)
    (hname : BLOCK_DEL.accepts_names.contains name = true)
    (hflag : star = true ∨ score = true) :
    parseElements (f + 1) (Token.blockOpen name star score args :: ts) cn =
      (parseElements f ts cn).map
        (fun out =>
          (out.1,
           (⟨if star then ParseExceptionKind.blockDisallowsStar
              else ParseExceptionKind.blockDisallowsScore, name⟩ : ParseException) :: out.2.1,
           out.2.2)) := by
  have hstar : BLOCK_DEL.accepts_star = false := rfl
  have hscore : BLOCK_DEL.accepts_score = false := rfl
  cases star with
  | true =>
    simp only [parseElements, lookupBlockRule, hname, if_true, hstar]
    cases hp : parseElements f ts cn with
    | error e => simp [Except.map]
    | ok out => obtain ⟨a, b, c, d⟩ := out; simp [Except.map]
  | false =>
    have hsc : score = true := by
      rcases hflag with h | h
      · exact absurd h (by simp)
      · exact h
    subst hsc
    simp only [parseElements, lookupBlockRule, hname, if_true, hstar, hscore]
    cases hp : parseElements f ts cn with
    | error e => simp [Except.map]
    | ok out => obtain ⟨a, b, c, d⟩ := out; simp [Except.map]

/-- C3 witness: at the concrete input [[*del]] followed by nothing, the
disallowed star flag becomes a blockDisallowsStar exception and the rest
of the stream parses as before. -/
theorem c3_witness :
    parseElements 2 [Token.blockOpen "del" true false []] [] =
      (parseElements 1 ([] : List Token) []).map
        (fun out =>
          (out.1,
           (⟨ParseExceptionKind.blockDisallowsStar, "del"⟩ : ParseException) :: out.2.1,
           out.2.2)) := by
  have h := c3_disallowed_flag 1 "del" true false [] [] [] rfl (Or.inl rfl)
  simpa using h

/-- C5: every container the deletion block's parse function returns has
paragraph-safety equal to the logical AND of the block's own default
policy (safe) and the aggregated paragraph-safety of its parsed
children. -/
theorem c5_paragraph_safety (f : Nat) (name : String) (special modifier in_head : Bool)
    (args : List (String × String)) (ts : List Token)
    (children : List Element) (attrs : List (String × String))
    (excs : List ParseException) (safe : Bool) (rem : List Token)
    (h : parse_fn f name special modifier in_head args ts =
      .ok (Element.container ContainerType.deletion children attrs, excs, safe, rem)) :
    safe = (delDefaultParagraphSafe && elementsParagraphSafe children) := by
  unfold parse_fn at h
  cases special with
  | true => simp at h
  | false =>
    cases modifier with
    | true => simp at h
    | false =>
      simp only [Bool.false_eq_true, if_false] at h
      by_cases hn : (!assert_block_name BLOCK_DEL name) = true
      · rw [if_pos hn] at h; simp at h
      · rw [if_neg hn] at h
        split at h
        · simp at h
        · rename_i body excs₁ safe₁ rem₁ heq
          simp only [Except.ok.injEq, Prod.mk.injEq, Element.container.injEq] at h
          obtain ⟨⟨hty, hch, hattrs⟩, hexc, hsafe, hrem⟩ := h
          subst hch
          subst hsafe
          simpa [delDefaultParagraphSafe] using
            parseElements_safe f ts BLOCK_DEL.accepts_names body excs₁ safe₁ rem₁ heq

/-- C5 witness: the deletion block parsed over the body "x" yields a
container with one text child and paragraph-safety true, the AND of the
default policy and the children's safety. -/
theorem c5_witness :
    (parse_fn 3 "del" false false true [] [Token.text "x", Token.blockClose "del"] =
      .ok (Element.container ContainerType.deletion [Element.text "x"] [], [], true, [])) ∧
    (true : Bool) = (delDefaultParagraphSafe && elementsParagraphSafe [Element.text "x"]) :=
  ⟨rfl, c5_paragraph_safety 3 "del" false false true []
    [Token.text "x", Token.blockClose "del"] [Element.text "x"] [] [] true [] rfl⟩

/-- C6: alias transparency for the deletion rule — valid block markup
(no modifier flags) whose opening tag uses any accepted name, "del" or
"deletion", parses to exactly the same result as the identical markup
using any other accepted name: same ContainerType, children and
attributes. -/
theorem c6_alias_transparency (f : Nat) (n₁ n₂ : String)
    (args : List (String × String)) (ts : List Token) (cn : List String)
    (h1 : BLOCK_DEL.accepts_names.contains n₁ = true)
    (h2 : BLOCK_DEL.accepts_names.contains n₂ = true) :
    parseElements f (Token.blockOpen n₁ false false args :: ts) cn =
      parseElements f (Token.blockOpen n₂ false false args :: ts) cn := by
  cases f with
  | zero => rfl
  | succ f =>
    simp only [parseElements, lookupBlockRule, assert_block_name, h1, h2, if_true,
      Bool.false_and, Bool.not_true, Bool.false_eq_true, if_false]

/-- C6 witness: the markup del...old.../del parses identically under the
accepted names "del" and "deletion". -/
theorem c6_witness :
    parseElements 4 (Token.blockOpen "del" false false []
        :: [Token.text "old", Token.blockClose "del"]) [] =
      parseElements 4 (Token.blockOpen "deletion" false false []
        :: [Token.text "old", Token.blockClose "del"]) [] :=
  c6_alias_transparency 4 "del" "deletion" [] [Token.text "old", Token.blockClose "del"] [] rfl rfl



/-- C2: footnote indices within one render pass are 1-based and strictly
increasing — whenever a render pass over a document finishes with final
counter n, the trace of indices handed out in encounter order is exactly
1, 2, ..., n, so the Nth reference encountered received index N,
regardless of where the references sit — and the footnote-list block
renders the body stored at 0-based list position p as the list item with
displayed number p + 1, regardless of where the block sits. -/
theorem c2_footnote_indices :
    (∀ (messages : List (String × String)) (language : String) (es : List Element) (n : Nat),
      counterAfter messages language es = some n →
      assignedAfter messages language es = some (indexRange 1 n)) ∧
    (∀ (ctx : HtmlContext) (title : Option String) (p : Nat) (b : String),
      ctx.footnotes.get? p = some b →
      render_footnote_block ctx title =
        Html.tag "div" [("is", "wj-footnotes-list"), ("class", "wj-footnotes-list")]
          [ Html.tag "div" [("class", "wj-title")] [Html.text (footnoteBlockTitle ctx title)]
          , Html.tag "ol" []
              (ctx.footnotes.enum.map (fun ic => footnoteListItem (ic.1 + 1) ic.2)) ]
      ∧ (ctx.footnotes.enum.map (fun ic => footnoteListItem (ic.1 + 1) ic.2)).get? p
          = some (footnoteListItem (p + 1) b)) := by
  constructor
  · intro messages language es n hc
    unfold counterAfter renderDocumentCtx at hc
    unfold assignedAfter renderDocumentCtx
    cases hr : renderElements (freshContext messages language (collectFootnotes es)) es with
    | none => rw [hr] at hc; simp at hc
    | some out =>
      obtain ⟨hs, ctx'⟩ := out
      rw [hr] at hc
      simp only [Option.map_some', Option.some.injEq] at hc
      obtain ⟨r1, r2, r3, r4, r5⟩ :=
        renderElements_trace (sizeOf es) _ es hs ctx' (Nat.le_refl _) hr
      simp only [freshContext] at r4 r5
      simp only [Option.map_some', Option.some.injEq, r5, List.nil_append]
      rw [← hc, r4]
      simp
  · intro ctx title p b hb
    refine ⟨rfl, ?_⟩
    rw [List.get?_map, List.get?_enum, hb]
    rfl

/-- C2 witness: a pass over two footnote references ends with counter 2
and the handed-out index trace 1, 2; and a context holding one body
renders it as list item number 1. -/
theorem c2_witness :
    (assignedAfter [] "en" [Element.footnote "a", Element.footnote "b"]
      = some (indexRange 1 2)) ∧
    ((({ footnoteCounter := 0, assignedIndices := [], footnotes := ["see note"]
       , messages := [], language := "en" } : HtmlContext).footnotes.enum.map
        (fun ic => footnoteListItem (ic.1 + 1) ic.2)).get? 0
      = some (footnoteListItem 1 "see note")) :=
  ⟨c2_footnote_indices.1 [] "en" [Element.footnote "a", Element.footnote "b"] 2 rfl,
   (c2_footnote_indices.2
     { footnoteCounter := 0, assignedIndices := [], footnotes := ["see note"]
     , messages := [], language := "en" } none 0 "see note" rfl).2⟩

/-- C4 counterexample: rendering a footnote reference when the footnote
body for the obtained index is missing from the RenderContext does not
fall back — the source unwraps the missing body, so the render aborts
(at the concrete empty-context input the result is an aborted render). -/
theorem c4_counterexample :
    render_footnote
      { footnoteCounter := 0, assignedIndices := [], footnotes := []
      , messages := [], language := "en" } = none :=
  rfl

/-- C4 amended: rendering a footnote reference aborts precisely when the
footnote body for the obtained index is missing from the RenderContext;
there is no fallback for a malformed tree, and with the body present the
render of the reference always succeeds. -/
theorem c4_unwrap_aborts (ctx : HtmlContext) :
    render_footnote ctx = none ↔
      get_footnote ctx (ctx.footnoteCounter + 1) = none := by
  simp only [render_footnote, next_footnote_index, get_footnote, Nat.add_sub_cancel]
  cases hg : ctx.footnotes.get? ctx.footnoteCounter with
  | none => simp
  | some b => simp

/-- C7: rendering a document with one footnote reference whose body is
"see note", followed later by the footnote-list block, emits an inline
marker whose visible text is "1", and the list block holds exactly one
list item showing "1" then "." then "see note". -/
theorem c7_footnote_scenario :
    renderDocument [("footnote", "footnote"), ("footnote-block-title", "Footnotes")] "en"
      [Element.footnote "see note", Element.text "middle", Element.footnoteBlock none]
    = some
      [ Html.tag "span" [("class", "wj-footnote-ref")]
          [ Html.tag "button"
              [ ("is", "wj-footnote-ref-marker")
              , ("class", "wj-footnote-ref-marker")
              , ("type", "button")
              , ("role", "link")
              , ("aria-label", "footnote 1.")
              , ("data-footnote-ref-id", "wj-footnote-ref-1")
              , ("data-footnote-content-id", "wj-footnote-1") ]
              [Html.text "1"]
          , Html.tag "span" [("class", "wj-footnote-ref-tooltip"), ("aria-hidden", "true")]
              [ Html.tag "span" [("class", "wj-footnote-ref-tooltip-label")]
                  [Html.text "footnote 1."]
              , Html.tag "span" [("class", "wj-footnote-ref-contents")]
                  [Html.text "see note"] ] ]
      , Html.text "middle"
      , Html.tag "div" [("is", "wj-footnotes-list"), ("class", "wj-footnotes-list")]
          [ Html.tag "div" [("class", "wj-title")] [Html.text "Footnotes"]
          , Html.tag "ol" []
              [ Html.tag "li" [("class", "wj-footnote"), ("id", "wj-footnote-1")]
                  [ Html.tag "a"
                      [ ("href", "javascript:;")
                      , ("onclick",
                          "WIKIJUMP.page.utils.scrollToFootnote(\x27wj-footnote-ref-1\x27)") ]
                      [ Html.text "1"
                      , Html.tag "span" [("class", "wj-footnote-sep")] [Html.text "."] ]
                  , Html.tag "div" [("class", "wj-footnote-contents")]
                      [Html.text "see note"] ] ] ] ] :=
  rfl

/-- C8: the rendered footnote-block title is the explicit title verbatim
when one is supplied, and otherwise the locale handle's message for the
key "footnote-block-title"; a lookup miss falls back to the documented
default string instead of failing the render. -/
theorem c8_footnote_block_title :
    (∀ (ctx : HtmlContext) (title : Option String),
      render_footnote_block ctx title =
        Html.tag "div" [("is", "wj-footnotes-list"), ("class", "wj-footnotes-list")]
          [ Html.tag "div" [("class", "wj-title")] [Html.text (footnoteBlockTitle ctx title)]
          , Html.tag "ol" []
              (ctx.footnotes.enum.map (fun ic => footnoteListItem (ic.1 + 1) ic.2)) ]) ∧
    (∀ (ctx : HtmlContext) (t : String), footnoteBlockTitle ctx (some t) = t) ∧
    (∀ ctx : HtmlContext,
      footnoteBlockTitle ctx none = get_message ctx.messages "footnote-block-title") ∧
    (∀ messages : List (String × String),
      messages.lookup "footnote-block-title" = none →
      get_message messages "footnote-block-title" = "footnote-block-title") := by
  refine ⟨fun ctx title => rfl, fun ctx t => rfl, fun ctx => rfl, fun messages h => ?_⟩
  simp [get_message, h]

/-- C8 witness: with an empty message table the lookup misses and the
title falls back to the default string, and an explicit title is used
verbatim. -/
theorem c8_witness :
    get_message [] "footnote-block-title" = "footnote-block-title" ∧
    footnoteBlockTitle
      { footnoteCounter := 0, assignedIndices := [], footnotes := []
      , messages := [], language := "en" } (some "My notes") = "My notes" :=
  ⟨c8_footnote_block_title.2.2.2 [] rfl,
   c8_footnote_block_title.2.1 _ "My notes"⟩

/-- C9: a document that contains footnote references but no
footnote-list block renders completely — the walk returns a result, with
no error attributable to the omission — and no footnotes-list element
appears anywhere in the output: the gathered bodies are never emitted as
a list. -/
theorem c9_no_block_no_error (messages : List (String × String)) (language : String)
    (es : List Element) (hnb : hasFootnoteBlock es = false) :
    (renderDocument messages language es).map anyContainsFootnotesList = some false := by
  have hlen : (freshContext messages language (collectFootnotes es)).footnoteCounter
      + countFootnoteRefs es
      ≤ (freshContext messages language (collectFootnotes es)).footnotes.length := by
    simp [freshContext, collectFootnotes_length]
  obtain ⟨⟨hs, ctx'⟩, hr⟩ :=
    renderElements_run (sizeOf es) _ es (Nat.le_refl _) hlen
  have hno := renderElements_noList (sizeOf es) _ es hs ctx' (Nat.le_refl _) hr hnb
  simp [renderDocument, renderDocumentCtx, hr, hno]

/-- C9 witness: a single footnote reference with no footnote-list block
renders successfully and its output contains no footnotes-list element. -/
theorem c9_witness :
    (renderDocument [] "en" [Element.footnote "a", Element.text "t"]).map
      anyContainsFootnotesList = some false :=
  c9_no_block_no_error [] "en" [Element.footnote "a", Element.text "t"] rfl

/-- C10: the inline reference marker and the footnote-list entry for the
same index carry matching cross-link identifiers: the marker for the
obtained index carries data-footnote-content-id "wj-footnote-{index}" and
data-footnote-ref-id "wj-footnote-ref-{index}", while the list item for
that index carries id "wj-footnote-{index}" and its back-link anchor
targets "wj-footnote-ref-{index}". -/
theorem c10_cross_ids (ctx : HtmlContext) (h : Html) (ctx' : HtmlContext) (b : String)
    (hr : render_footnote ctx = some (h, ctx')) :
    h = Html.tag "span" [("class", "wj-footnote-ref")]
        [ Html.tag "button"
            [ ("is", "wj-footnote-ref-marker")
            , ("class", "wj-footnote-ref-marker")
            , ("type", "button")
            , ("role", "link")
            , ("aria-label", get_message ctx.messages "footnote" ++ " "
                ++ toString (ctx.footnoteCounter + 1) ++ ".")
            , ("data-footnote-ref-id", footnoteRefId (ctx.footnoteCounter + 1))
            , ("data-footnote-content-id", footnoteContentId (ctx.footnoteCounter + 1)) ]
            [Html.text (toString (ctx.footnoteCounter + 1))]
        , Html.tag "span" [("class", "wj-footnote-ref-tooltip"), ("aria-hidden", "true")]
            [ Html.tag "span" [("class", "wj-footnote-ref-tooltip-label")]
                [Html.text (get_message ctx.messages "footnote" ++ " "
                  ++ toString (ctx.footnoteCounter + 1) ++ ".")]
            , Html.tag "span" [("class", "wj-footnote-ref-contents")]
                [Html.text ((ctx.footnotes.get? ctx.footnoteCounter).getD "")] ] ]
    ∧ footnoteListItem (ctx.footnoteCounter + 1) b =
        Html.tag "li"
          [("class", "wj-footnote"), ("id", footnoteContentId (ctx.footnoteCounter + 1))]
          [ Html.tag "a"
              [ ("href", "javascript:;")
              , ("onclick", "WIKIJUMP.page.utils.scrollToFootnote(\x27"
                  ++ footnoteRefId (ctx.footnoteCounter + 1) ++ "\x27)") ]
              [ Html.text (toString (ctx.footnoteCounter + 1))
              , Html.tag "span" [("class", "wj-footnote-sep")] [Html.text "."] ]
          , Html.tag "div" [("class", "wj-footnote-contents")] [Html.text b] ] := by
  refine ⟨?_, rfl⟩
  simp only [render_footnote, next_footnote_index, get_footnote, Nat.add_sub_cancel] at hr
  cases hg : ctx.footnotes.get? ctx.footnoteCounter with
  | none => rw [hg] at hr; exact absurd hr (by simp)
  | some contents =>
    rw [hg] at hr
    simp only [Option.some.injEq, Prod.mk.injEq] at hr
    rw [← hr.1]
    rfl

/-- C10 witness: at a concrete context holding one body, the marker and
the list item for index 1 carry the matching identifier pair
wj-footnote-1 / wj-footnote-ref-1. -/
theorem c10_witness :
    footnoteListItem 1 "note" =
      Html.tag "li" [("class", "wj-footnote"), ("id", footnoteContentId 1)]
        [ Html.tag "a"
            [ ("href", "javascript:;")
            , ("onclick", "WIKIJUMP.page.utils.scrollToFootnote(\x27"
                ++ footnoteRefId 1 ++ "\x27)") ]
            [ Html.text (toString (1 : Nat))
            , Html.tag "span" [("class", "wj-footnote-sep")] [Html.text "."] ]
        , Html.tag "div" [("class", "wj-footnote-contents")] [Html.text "note"] ] :=
  (c10_cross_ids
    { footnoteCounter := 0, assignedIndices := [], footnotes := ["x"]
    , messages := [], language := "en" } _ _ "note" rfl).2


end Ftml
